import Mathlib

/-!
Shallow embedding of the PixivCrawler collection pipeline
(`pixiv_utils/pixiv_crawler/collector/collector.py` and
`pixiv_crawler/settings.py`) together with proofs of the specified
properties of `Collector.add`, `Collector.collect`, the metadata pass
`Collector._collect_and_save_data`, the retry policy around
`FAIL_TIMES`, and the settings-module load behaviour.

Identifiers (`illust_id`) are Python strings; the working sets
`Collector.id_group` and `Downloader.url_group` are Python `set`s,
modelled as `Finset String`.
-/

namespace PixivCrawler

/-- State of the Downloader that the Collector holds a reference to.
Modelled from the spec: the Downloader source file is not part of the
sources at hand; §4.5 specifies `add(urls)` as an idempotent union into
its working set `url_group`, which is all the Collector-side claims
need. -/
structure DownloaderState where
  url_group : Finset String
deriving DecidableEq

/-- The mutable state of `Collector` (`collector.py`, `__init__`):
`self.id_group: Set[str] = set()` plus the attached downloader. -/
structure Collector where
  id_group : Finset String
  downloader : DownloaderState
deriving DecidableEq

/-- Embedding of `Collector.add` (`collector.py` lines 27-29):
`for image_id in image_ids: self.id_group.add(image_id)`.
The iterable is modelled as a list (its iteration order). -/
def Collector.add (c : Collector) (image_ids : List String) : Collector :=
  { c with id_group := image_ids.foldl (fun s x => insert x s) c.id_group }

/-- A fresh collector attached to downloader `dl` (`__init__`:
`self.id_group = set()`). -/
def Collector.init (dl : DownloaderState) : Collector :=
  { id_group := ∅, downloader := dl }

/-- Embedding of `Downloader.add` as called from `collect`
(collector.py line 64). Modelled from the spec (§4.5): an idempotent
union of the given URLs into `url_group`. -/
def downloaderAdd (dl : DownloaderState) (urls : List String) : DownloaderState :=
  { url_group := urls.foldl (fun s u => insert u s) dl.url_group }

/-- JSON values, as produced by the selectors and consumed by
`json.dumps` (collector.py line 123) and `json.load` (settings.py
line 21). -/
inductive JValue where
  | null
  | bool (b : Bool)
  | num (n : Int)
  | str (s : String)
  | arr (xs : List JValue)
  | obj (kvs : List (String × JValue))
deriving Inhabited

def hexDigit (n : Nat) : Char :=
  if n < 10 then Char.ofNat (48 + n) else Char.ofNat (87 + n)

def hex4 (n : Nat) : List Char :=
  [hexDigit (n / 4096 % 16), hexDigit (n / 256 % 16), hexDigit (n / 16 % 16),
    hexDigit (n % 16)]

/-- Character escaping performed by Python `json.dumps`: with
`ensure_ascii=False` only the quote, the backslash and control
characters are escaped; with `ensure_ascii=True` non-ASCII characters
are additionally written as `\uXXXX` sequences (surrogate pairs beyond
the basic plane). -/
def jsonEscapeChar (ensureAscii : Bool) (c : Char) : List Char :=
  if c = '"' then ['\\', '"']
  else if c = '\\' then ['\\', '\\']
  else if c = '\n' then ['\\', 'n']
  else if c = '\t' then ['\\', 't']
  else if c = '\r' then ['\\', 'r']
  else if c = Char.ofNat 8 then ['\\', 'b']
  else if c = Char.ofNat 12 then ['\\', 'f']
  else if c.toNat < 32 then '\\' :: 'u' :: hex4 c.toNat
  else if ensureAscii then
    if c.toNat < 128 then [c]
    else if c.toNat < 65536 then '\\' :: 'u' :: hex4 c.toNat
    else
      '\\' :: 'u' :: hex4 (55296 + (c.toNat - 65536) / 1024)
        ++ '\\' :: 'u' :: hex4 (56320 + (c.toNat - 65536) % 1024)
  else [c]

/-- A JSON string literal: quote, escaped characters, quote. -/
def jsonQuoteChars (ea : Bool) (s : String) : List Char :=
  '"' :: (s.data.map (jsonEscapeChar ea)).flatten ++ ['"']

mutual
/-- Serialization done by Python `json.dumps(v, indent=ind, ...)`
(character-list form): with an indent, containers are split one element
per line, each line indented by `ind` spaces per nesting level, the
item separator is a comma and the key separator a colon plus space. -/
def jsonDumpVal (ea : Bool) (ind lvl : Nat) : JValue → List Char
  | JValue.null => "null".data
  | JValue.bool b => if b then "true".data else "false".data
  | JValue.num n => (toString n).data
  | JValue.str s => jsonQuoteChars ea s
  | JValue.arr [] => ['[', ']']
  | JValue.arr (x :: xs) =>
      '[' :: '\n' :: (jsonDumpItems ea ind (lvl + 1) x xs
        ++ '\n' :: (List.replicate (ind * lvl) ' ' ++ [']']))
  | JValue.obj [] => [Char.ofNat 123, Char.ofNat 125]
  | JValue.obj (kv :: kvs) =>
      Char.ofNat 123 :: '\n' :: (jsonDumpEntries ea ind (lvl + 1) kv kvs
        ++ '\n' :: (List.replicate (ind * lvl) ' ' ++ [Char.ofNat 125]))
termination_by v => sizeOf v

def jsonDumpItems (ea : Bool) (ind lvl : Nat) : JValue → List JValue → List Char
  | x, [] => List.replicate (ind * lvl) ' ' ++ jsonDumpVal ea ind lvl x
  | x, y :: xs =>
      List.replicate (ind * lvl) ' ' ++ jsonDumpVal ea ind lvl x
        ++ ',' :: '\n' :: jsonDumpItems ea ind lvl y xs
termination_by x xs => sizeOf x + sizeOf xs

def jsonDumpEntries (ea : Bool) (ind lvl : Nat) :
    String × JValue → List (String × JValue) → List Char
  | (k, v), [] =>
      List.replicate (ind * lvl) ' ' ++ jsonQuoteChars ea k
        ++ ':' :: ' ' :: jsonDumpVal ea ind lvl v
  | (k, v), kv :: kvs =>
      List.replicate (ind * lvl) ' ' ++ jsonQuoteChars ea k
        ++ ':' :: ' ' :: jsonDumpVal ea ind lvl v
        ++ ',' :: '\n' :: jsonDumpEntries ea ind lvl kv kvs
termination_by kv kvs => sizeOf kv + sizeOf kvs
end

/-- Translation of `json.dumps(v, indent=ind, ensure_ascii=ea)`. -/
def jsonDumps (v : JValue) (ind : Nat) (ea : Bool) : String :=
  String.mk (jsonDumpVal ea ind 0 v)

/-- Python `os.path.join` on two components (posix semantics): an
absolute second component (leading slash) replaces the first; otherwise
a separator is inserted unless the first component is empty or already
ends with a slash. -/
def pathJoin (a b : String) : String :=
  if b.data.head? = some '/' then b
  else if a = "" || a.data.getLast? = some '/' then a ++ b
  else a ++ "/" ++ b

/-- The metadata file path
`os.path.join(os.path.join(download_config.store_path, illust_id), file_name)`
(collector.py lines 97-98 and 116-120). -/
def filePath (store_path illust_id file_name : String) : String :=
  pathJoin (pathJoin store_path illust_id) file_name

/-- The metadata request URL built in the filter loop
(collector.py line 101). -/
def metadataUrl (illust_id : String) : String :=
  "https://www.pixiv.net/artworks/" ++ illust_id

/-- The page-resolution URL (collector.py line 47). -/
def pagesUrl (illust_id : String) : String :=
  "https://www.pixiv.net/ajax/illust/" ++ illust_id ++ "/pages?lang=zh"

/-- The parts of the filesystem the metadata pass touches: file
contents by path and the set of existing directories. -/
structure FileSystem where
  files : String → Option String
  dirs : List String

/-- Python `os.path.exists` (collector.py line 99): true for an
existing file or an existing directory. -/
def pathExists (fs : FileSystem) (p : String) : Bool :=
  (fs.files p).isSome || p ∈ fs.dirs

/-- Python `os.makedirs(dir, exist_ok=True)` (collector.py line 117):
creates the directory when absent; an already-existing directory is not
an error and leaves the filesystem unchanged. -/
def makedirsExistOk (fs : FileSystem) (dir : String) : FileSystem :=
  if dir ∈ fs.dirs then fs else { fs with dirs := dir :: fs.dirs }

/-- Writing a file (collector.py lines 121-124). -/
def writeFile (fs : FileSystem) (path content : String) : FileSystem :=
  { fs with files := fun p => if p = path then some content else fs.files p }

/-- The cache filter of `_collect_and_save_data` (collector.py lines
93-103): identifiers whose metadata file does not yet exist are kept,
paired with their request URLs; identifiers whose file already exists
are skipped. Returns `(filtered_id_group, filtered_urls)`. -/
def metaFilter (store_path file_name : String) (fs : FileSystem) :
    List String → List String × List String
  | [] => ([], [])
  | i :: ids =>
    if pathExists fs (filePath store_path i file_name) then
      metaFilter store_path file_name fs ids
    else
      (i :: (metaFilter store_path file_name fs ids).1,
        metadataUrl i :: (metaFilter store_path file_name fs ids).2)

/-- State built by the zip loop of `_collect_and_save_data`: the `data`
dict and the filesystem. -/
structure MetaPassResult where
  data : String → Option JValue
  fs : FileSystem

/-- The document written for one identifier (collector.py line 123):
`json.dumps({illust_id: collected_data}, indent=4, ensure_ascii=False)`. -/
def metaFileContent (illust_id : String) (collected_data : JValue) : String :=
  jsonDumps (JValue.obj [(illust_id, collected_data)]) 4 false

/-- The body of the zip loop (collector.py lines 106-125): for each
`(illust_id, collected_data)` pair, in order, a `None` result is
skipped; otherwise the entry is stored in `data`, the identifier's
directory is created with `os.makedirs(..., exist_ok=True)`, and
`json.dumps({illust_id: collected_data}, indent=4, ensure_ascii=False)`
is written to the metadata file. -/
def metaProcess (store_path file_name : String) :
    MetaPassResult → List (String × Option JValue) → MetaPassResult
  | st, [] => st
  | st, (_, none) :: rest => metaProcess store_path file_name st rest
  | st, (i, some d) :: rest =>
      let dir := pathJoin store_path i
      let fp := filePath store_path i file_name
      let fs1 := makedirsExistOk st.fs dir
      let fs2 := writeFile fs1 fp (metaFileContent i d)
      metaProcess store_path file_name
        { data := fun k => if k = i then some d else st.data k, fs := fs2 } rest

/-- Embedding of `Collector._collect_and_save_data` (collector.py lines
71-128). The network is a function from request URL to the result of
the `collect` unit applied to the configured selector, where `none`
models a failed collection; `executor.map` preserves input order, so
the results zipped against `filtered_id_group` are exactly
`filtered_urls.map net`. The `id_group` set is passed as the list of
identifiers in iteration order. -/
def collectAndSaveData (net : String → Option JValue)
    (store_path file_name : String) (fs : FileSystem) (id_group : List String) :
    MetaPassResult :=
  metaProcess store_path file_name ⟨fun _ => none, fs⟩
    ((metaFilter store_path file_name fs id_group).1.zip
      ((metaFilter store_path file_name fs id_group).2.map net))

/-- URLs contributed by one identifier in the URL-resolution phase: the
selector result, or nothing when it is `None`. -/
def urlsOf (net : String → Option (List String)) (i : String) : List String :=
  (net (pagesUrl i)).getD []

/-- Embedding of the `as_completed` loop of `collect` (collector.py
lines 61-65): the first argument list is the completion order of the
submitted futures (an arbitrary permutation of the working set); a
non-None result is forwarded to `Downloader.add` immediately, a `None`
result is skipped without error. -/
def urlPhase (net : String → Option (List String)) :
    List String → DownloaderState → DownloaderState
  | [], dl => dl
  | i :: rest, dl =>
      match net (pagesUrl i) with
      | some urls => urlPhase net rest (downloaderAdd dl urls)
      | none => urlPhase net rest dl

/-- One worker-pool phase run by `collect`, with the size of the
`ThreadPoolExecutor` it creates. -/
inductive PoolEvent where
  | metaPool (data_name : String) (size : Nat)
  | urlPool (size : Nat)
deriving DecidableEq

/-- Order and pool sizes of the phases of `Collector.collect`
(collector.py lines 36-44 and 92): the tag pass and then the bookmark
pass, when enabled, each run to completion first, each with
`ThreadPoolExecutor(download_config.num_threads)`; the URL-resolution
pass runs afterwards, also with
`ThreadPoolExecutor(download_config.num_threads)`. -/
def collectPhases (with_tag bookmark : Bool) (num_threads : Nat) : List PoolEvent :=
  (if with_tag then [PoolEvent.metaPool "tags" num_threads] else [])
    ++ (if bookmark then [PoolEvent.metaPool "bookmark_data" num_threads] else [])
    ++ [PoolEvent.urlPool num_threads]

def poolSize : PoolEvent → Nat
  | PoolEvent.metaPool _ n => n
  | PoolEvent.urlPool n => n

/-- The configured retry bound `FAIL_TIMES` (settings.py lines 30-31):
abort a request/download after 5 (default) unsuccessful attempts. -/
def FAIL_TIMES : Nat := 5

inductive FetchOutcome where
  | Success
  | FatalFailure
deriving DecidableEq

/-- Modelled from the spec: the Fetcher's retry loop is not among the
sources at hand (only its bound `FAIL_TIMES` in settings.py is). §4.1
specifies that a fetch retries transient failures up to `FAIL_TIMES`
attempts in total and that exhausting the retries yields
`FatalFailure`. `ok i` says whether the i-th attempt (0-based) would
succeed; the result pairs the outcome with the number of attempts
issued. -/
def fetchAttempts (ok : Nat → Bool) : Nat → Nat → FetchOutcome × Nat
  | 0, made => (FetchOutcome.FatalFailure, made)
  | fuel + 1, made =>
      if ok made then (FetchOutcome.Success, made + 1)
      else fetchAttempts ok fuel (made + 1)

/-- A fetch with at most `max_attempts` attempts. -/
def fetchWithRetry (max_attempts : Nat) (ok : Nat → Bool) : FetchOutcome × Nat :=
  fetchAttempts ok max_attempts 0

/-- An attempt disposition where the first n attempts fail and all
later ones succeed. -/
def failFirst (n : Nat) : Nat → Bool := fun i => decide (n ≤ i)

/-- An attempt disposition where every attempt fails. -/
def allFail : Nat → Bool := fun _ => false

/-- The possible states of `userdata.json` as seen by settings.py:
missing file, present but not valid JSON, or a parsed document. -/
inductive UserdataFile where
  | absent
  | unparsable
  | parsed (v : JValue)

/-- Outcome of importing `pixiv_crawler/settings.py`: process exit with
a code, a message printed before it, and the values `PIXIV_ID` and
`PASSWORD` hold at that point; or a propagated exception; or a
successful load. -/
inductive SettingsOutcome where
  | exited (code : Nat) (message : String) (pixiv_id password : String)
  | raised (exn : String)
  | loaded (message : String) (name password : JValue)

/-- Embedding of the module-level load in settings.py lines 17-28:
`PIXIV_ID` and `PASSWORD` start as empty strings; a missing file prints
"do not find userdata.json" and calls `sys.exit(0)` with the defaults
untouched; any other failure (malformed JSON, a missing key, a
non-object document) raises and the exception propagates; on success
the else-branch prints "load userdata.json successfully!". -/
def loadSettingsModule : UserdataFile → SettingsOutcome
  | UserdataFile.absent =>
      SettingsOutcome.exited 0 "do not find userdata.json" "" ""
  | UserdataFile.unparsable => SettingsOutcome.raised "JSONDecodeError"
  | UserdataFile.parsed (JValue.obj kvs) =>
      match kvs.lookup "name" with
      | none => SettingsOutcome.raised "KeyError"
      | some nv =>
        match kvs.lookup "password" with
        | none => SettingsOutcome.raised "KeyError"
        | some pv =>
            SettingsOutcome.loaded "load userdata.json successfully!" nv pv
  | UserdataFile.parsed _ => SettingsOutcome.raised "TypeError"

/-- An empty filesystem (concrete test input). -/
def emptyFS : FileSystem := ⟨fun _ => none, []⟩

/-- A filesystem already holding a metadata file for identifier "100"
(concrete test input). -/
def fsWith100 : FileSystem :=
  ⟨fun p => if p = filePath "st" "100" "tags.json" then some "old" else none, []⟩

/-- A network where metadata collection succeeds for every identifier
with a fixed document (concrete test input). -/
def netOkJ : String → Option JValue := fun _ => some (JValue.str "x")

/-- A network where metadata collection fails for identifier "100" and
succeeds elsewhere (concrete test input). -/
def netFail100 : String → Option JValue :=
  fun u => if u = metadataUrl "100" then none else some (JValue.str "ok")

/-- A page-resolution network where identifier "100" has two pages and
every other identifier has zero pages, i.e. a null selector result
(concrete test input). -/
def netPages : String → Option (List String) :=
  fun u => if u = pagesUrl "100" then some ["u1", "u2"] else none

/-- A metadata-pass state whose filesystem already contains the output
directory for identifier "1" (concrete test input). -/
def stDir1 : MetaPassResult := ⟨fun _ => none, ⟨fun _ => none, [pathJoin "s" "1"]⟩⟩

end PixivCrawler

namespace PixivCrawler

theorem foldl_insert_eq_union (l : List String) (s : Finset String) :
    l.foldl (fun t x => insert x t) s = s ∪ l.toFinset := by
  induction l generalizing s with
  | nil => simp
  | cons a l ih =>
    simp only [List.foldl_cons, ih, List.toFinset_cons]
    ext x
    simp [or_comm, or_left_comm]

theorem Collector.add_id_group (c : Collector) (ids : List String) :
    (c.add ids).id_group = c.id_group ∪ ids.toFinset :=
  foldl_insert_eq_union ids c.id_group

theorem Collector.addAll_id_group (c : Collector) (batches : List (List String)) :
    (batches.foldl Collector.add c).id_group = c.id_group ∪ batches.flatten.toFinset := by
  induction batches generalizing c with
  | nil => simp
  | cons b bs ih =>
    simp only [List.foldl_cons, ih, Collector.add_id_group, List.flatten_cons,
      List.toFinset_append, Finset.union_assoc]

theorem Collector.add_downloader_eq (c : Collector) (ids : List String) :
    (c.add ids).downloader = c.downloader := rfl

theorem Collector.eq_of_fields {a b : Collector}
    (h1 : a.id_group = b.id_group) (h2 : a.downloader = b.downloader) : a = b := by
  cases a; cases b; simp_all

theorem string_append_inj {p a b : String} (h : p ++ a = p ++ b) : a = b := by
  have hd := congrArg String.data h
  rw [String.data_append, String.data_append] at hd
  exact String.ext (List.append_cancel_left hd)

theorem metadataUrl_inj {a b : String} (h : metadataUrl a = metadataUrl b) : a = b :=
  string_append_inj h

theorem pathExists_false_files {fs : FileSystem} {p : String}
    (h : pathExists fs p = false) : fs.files p = none := by
  unfold pathExists at h
  cases hv : fs.files p with
  | none => rfl
  | some c => rw [hv] at h; simp at h

theorem makedirs_files (fs : FileSystem) (dir : String) :
    (makedirsExistOk fs dir).files = fs.files := by
  unfold makedirsExistOk
  split <;> rfl

theorem makedirs_mem (fs : FileSystem) (dir : String) :
    dir ∈ (makedirsExistOk fs dir).dirs := by
  unfold makedirsExistOk
  split
  · assumption
  · exact List.mem_cons_self _ _

theorem makedirs_idem (fs : FileSystem) (dir : String) (h : dir ∈ fs.dirs) :
    makedirsExistOk fs dir = fs := by
  unfold makedirsExistOk
  exact if_pos h

theorem metaFilter_snd_eq (store fn : String) (fs : FileSystem) (ids : List String) :
    (metaFilter store fn fs ids).2 = (metaFilter store fn fs ids).1.map metadataUrl := by
  induction ids with
  | nil => rfl
  | cons i ids ih =>
    cases hp : pathExists fs (filePath store i fn) <;> simp [metaFilter, hp, ih]

theorem metaFilter_mem_fst {store fn : String} {fs : FileSystem} {ids : List String}
    {i : String} (h : i ∈ (metaFilter store fn fs ids).1) :
    i ∈ ids ∧ pathExists fs (filePath store i fn) = false := by
  induction ids with
  | nil => cases h
  | cons a ids ih =>
    cases hp : pathExists fs (filePath store a fn) <;> rw [metaFilter] at h <;>
      simp only [hp] at h
    · simp only [Bool.false_eq_true, if_false, List.mem_cons] at h
      cases h with
      | inl he => subst he; exact ⟨List.mem_cons_self _ _, hp⟩
      | inr hm => exact ⟨List.mem_cons_of_mem _ (ih hm).1, (ih hm).2⟩
    · simp only [if_true] at h
      exact ⟨List.mem_cons_of_mem _ (ih h).1, (ih h).2⟩

theorem metaProcess_files_frame (store fn p : String) :
    ∀ (ps : List (String × Option JValue)) (st : MetaPassResult),
      (∀ a d, (a, some d) ∈ ps → filePath store a fn ≠ p) →
      (metaProcess store fn st ps).fs.files p = st.fs.files p := by
  intro ps
  induction ps with
  | nil => intro st _; rfl
  | cons hd rest ih =>
    intro st h
    obtain ⟨a, v⟩ := hd
    cases v with
    | none =>
      exact ih st fun b e hm => h b e (List.mem_cons_of_mem _ hm)
    | some d =>
      have hne : p ≠ filePath store a fn := fun he =>
        h a d (List.mem_cons_self _ _) he.symm
      rw [metaProcess, ih _ fun b e hm => h b e (List.mem_cons_of_mem _ hm)]
      simp only [writeFile, makedirs_files]
      rw [if_neg hne]

theorem metaProcess_data_frame (store fn k : String) :
    ∀ (ps : List (String × Option JValue)) (st : MetaPassResult),
      (∀ d, (k, some d) ∉ ps) →
      (metaProcess store fn st ps).data k = st.data k := by
  intro ps
  induction ps with
  | nil => intro st _; rfl
  | cons hd rest ih =>
    intro st h
    obtain ⟨a, v⟩ := hd
    cases v with
    | none =>
      exact ih st fun d hm => h d (List.mem_cons_of_mem _ hm)
    | some d =>
      have hka : k ≠ a := by
        intro he
        exact h d (by rw [he]; exact List.mem_cons_self _ _)
      rw [metaProcess, ih _ fun e hm => h e (List.mem_cons_of_mem _ hm)]
      simp [hka]

theorem metaProcess_preserve (store fn i : String) (d : JValue) :
    ∀ (ps : List (String × Option JValue)) (st : MetaPassResult),
      (∀ a v, (a, some v) ∈ ps →
        (a = i → v = d) ∧ (filePath store a fn = filePath store i fn → a = i)) →
      st.data i = some d →
      st.fs.files (filePath store i fn) = some (metaFileContent i d) →
      (metaProcess store fn st ps).data i = some d
      ∧ (metaProcess store fn st ps).fs.files (filePath store i fn)
          = some (metaFileContent i d) := by
  intro ps
  induction ps with
  | nil => intro st _ h1 h2; exact ⟨h1, h2⟩
  | cons hd rest ih =>
    intro st h h1 h2
    obtain ⟨a, v⟩ := hd
    cases v with
    | none =>
      exact ih st (fun b e hm => h b e (List.mem_cons_of_mem _ hm)) h1 h2
    | some dv =>
      have hs := h a dv (List.mem_cons_self _ _)
      rw [metaProcess]
      refine ih _ (fun b e hm => h b e (List.mem_cons_of_mem _ hm)) ?_ ?_
      · by_cases hia : i = a
        · have : dv = d := hs.1 hia.symm
          simp [hia, this]
        · simpa [hia] using h1
      · by_cases hpa : filePath store i fn = filePath store a fn
        · have hai : a = i := hs.2 hpa.symm
          subst hai
          have hdd : dv = d := hs.1 rfl
          simp [writeFile, hdd]
        · simp only [writeFile, makedirs_files]
          rw [if_neg hpa]
          exact h2

theorem metaProcess_establish (store fn i : String) (d : JValue) :
    ∀ (ps : List (String × Option JValue)) (st : MetaPassResult),
      (i, some d) ∈ ps →
      (∀ a v, (a, some v) ∈ ps →
        (a = i → v = d) ∧ (filePath store a fn = filePath store i fn → a = i)) →
      (metaProcess store fn st ps).data i = some d
      ∧ (metaProcess store fn st ps).fs.files (filePath store i fn)
          = some (metaFileContent i d) := by
  intro ps
  induction ps with
  | nil => intro st hm; cases hm
  | cons hd rest ih =>
    intro st hm h
    obtain ⟨a, v⟩ := hd
    cases v with
    | none =>
      have hm' : (i, some d) ∈ rest := by
        rcases List.mem_cons.mp hm with he | hr
        · exact absurd (congrArg Prod.snd he) (by simp)
        · exact hr
      exact ih st hm' fun b e hmb => h b e (List.mem_cons_of_mem _ hmb)
    | some dv =>
      by_cases hai : a = i
      · subst hai
        have hdv : dv = d := (h a dv (List.mem_cons_self _ _)).1 rfl
        subst hdv
        rw [metaProcess]
        refine metaProcess_preserve store fn a dv rest _
          (fun b e hmb => h b e (List.mem_cons_of_mem _ hmb)) ?_ ?_
        · simp
        · simp [writeFile]
      · have hm' : (i, some d) ∈ rest := by
          rcases List.mem_cons.mp hm with he | hr
          · exact absurd (congrArg Prod.fst he) fun hia => hai hia.symm
          · exact hr
        rw [metaProcess]
        exact ih _ hm' fun b e hmb => h b e (List.mem_cons_of_mem _ hmb)

theorem collectAndSaveData_pairs (net : String → Option JValue)
    (store fn : String) (fs : FileSystem) (ids : List String) :
    collectAndSaveData net store fn fs ids
      = metaProcess store fn ⟨fun _ => none, fs⟩
          ((metaFilter store fn fs ids).1.map
            (fun a => (a, net (metadataUrl a)))) := by
  unfold collectAndSaveData
  rw [metaFilter_snd_eq, List.map_map]
  congr 1
  have := List.zip_map' id (net ∘ metadataUrl) (metaFilter store fn fs ids).1
  simpa using this

/-- With `ensure_ascii=False`, every printable character other than the
quote and the backslash — in particular every non-ASCII character — is
emitted literally, unescaped. -/
theorem jsonEscapeChar_literal (c : Char) (h32 : 31 < c.toNat)
    (hq : c ≠ '"') (hb : c ≠ '\\') : jsonEscapeChar false c = [c] := by
  have hn : c ≠ '\n' := fun hc => by subst hc; exact absurd h32 (by decide)
  have ht : c ≠ '\t' := fun hc => by subst hc; exact absurd h32 (by decide)
  have hr : c ≠ '\r' := fun hc => by subst hc; exact absurd h32 (by decide)
  have h8 : c ≠ Char.ofNat 8 := fun hc => by subst hc; exact absurd h32 (by decide)
  have h12 : c ≠ Char.ofNat 12 := fun hc => by subst hc; exact absurd h32 (by decide)
  simp [jsonEscapeChar, hq, hb, hn, ht, hr, h8, h12, Nat.not_lt.mpr h32]

theorem collect_save_processed (net : String → Option JValue)
    (store fn : String) (fs : FileSystem) (ids : List String)
    (hinj : ∀ a ∈ ids, ∀ b ∈ ids, filePath store a fn = filePath store b fn → a = b)
    (j : String) (hj : j ∈ (metaFilter store fn fs ids).1)
    (d : JValue) (hd : net (metadataUrl j) = some d) :
    (collectAndSaveData net store fn fs ids).data j = some d
    ∧ (collectAndSaveData net store fn fs ids).fs.files (filePath store j fn)
        = some (metaFileContent j d) := by
  rw [collectAndSaveData_pairs]
  refine metaProcess_establish store fn j d _ _ ?_ ?_
  · exact List.mem_map.mpr ⟨j, hj, by rw [hd]⟩
  · intro a v hm
    obtain ⟨b, hb, hbe⟩ := List.mem_map.mp hm
    have hb1 : b = a := congrArg Prod.fst hbe
    have hb2 : net (metadataUrl b) = some v := congrArg Prod.snd hbe
    subst hb1
    constructor
    · intro hbj
      subst hbj
      rw [hd] at hb2
      exact (Option.some.injEq _ _ ▸ hb2).symm
    · intro hpe
      exact hinj b (metaFilter_mem_fst hb).1 j (metaFilter_mem_fst hj).1 hpe

/-- C1: an identifier whose metadata file already exists on disk is
skipped by the metadata pass of `collect()`: no request URL is built
for it, so no network fetch is issued for that identifier, and its
existing file is never re-fetched or overwritten — its content is
unchanged by the pass. -/
theorem metadata_pass_skips_existing (net : String → Option JValue)
    (store fn : String) (fs : FileSystem) (ids : List String) (i c : String)
    (hmem : i ∈ ids)
    (hex : fs.files (filePath store i fn) = some c) :
    metadataUrl i ∉ (metaFilter store fn fs ids).2
    ∧ (collectAndSaveData net store fn fs ids).fs.files (filePath store i fn)
        = some c := by
  constructor
  · rw [metaFilter_snd_eq]
    intro hin
    obtain ⟨a, ha, hae⟩ := List.mem_map.mp hin
    have hai : a = i := metadataUrl_inj hae
    subst hai
    have hpe := (metaFilter_mem_fst ha).2
    simp [pathExists, hex] at hpe
  · rw [collectAndSaveData_pairs, metaProcess_files_frame]
    · exact hex
    · intro a d hm
      obtain ⟨b, hb, hbe⟩ := List.mem_map.mp hm
      have hb1 : b = a := congrArg Prod.fst hbe
      subst hb1
      have hpb := pathExists_false_files (metaFilter_mem_fst hb).2
      intro hpe
      rw [hpe, hex] at hpb
      cases hpb

/-- Witness for C1: with a file already on disk for identifier "100",
the pass fetches nothing for it and leaves the file intact. -/
theorem metadata_pass_skips_existing_witness :
    metadataUrl "100" ∉ (metaFilter "st" "tags.json" fsWith100 ["100", "101"]).2
    ∧ (collectAndSaveData netOkJ "st" "tags.json" fsWith100
        ["100", "101"]).fs.files (filePath "st" "100" "tags.json") = some "old" :=
  metadata_pass_skips_existing netOkJ "st" "tags.json" fsWith100
    ["100", "101"] "100" "old" (by decide) (by simp [fsWith100])

/-- C4: in the metadata pass a fetch failure (a collection result of
`None`) for one identifier is isolated: it stores no entry and writes
no file for that identifier, and every other fetched identifier whose
collection succeeds is still processed to completion. -/
theorem metadata_failure_isolated (net : String → Option JValue)
    (store fn : String) (fs : FileSystem) (ids : List String) (i : String)
    (hmem : i ∈ (metaFilter store fn fs ids).1)
    (hfail : net (metadataUrl i) = none)
    (hinj : ∀ a ∈ ids, ∀ b ∈ ids, filePath store a fn = filePath store b fn → a = b) :
    (collectAndSaveData net store fn fs ids).data i = none
    ∧ (collectAndSaveData net store fn fs ids).fs.files (filePath store i fn) = none
    ∧ ∀ j ∈ (metaFilter store fn fs ids).1, ∀ d, net (metadataUrl j) = some d →
        (collectAndSaveData net store fn fs ids).data j = some d
        ∧ (collectAndSaveData net store fn fs ids).fs.files (filePath store j fn)
            = some (metaFileContent j d) := by
  refine ⟨?_, ?_,
    fun j hj d hd => collect_save_processed net store fn fs ids hinj j hj d hd⟩
  · rw [collectAndSaveData_pairs, metaProcess_data_frame]
    · intro d hm
      obtain ⟨b, hb, hbe⟩ := List.mem_map.mp hm
      have hb1 : b = i := congrArg Prod.fst hbe
      have hb2 : net (metadataUrl b) = some d := congrArg Prod.snd hbe
      rw [hb1, hfail] at hb2
      cases hb2
  · rw [collectAndSaveData_pairs, metaProcess_files_frame]
    · exact pathExists_false_files (metaFilter_mem_fst hmem).2
    · intro a d hm
      obtain ⟨b, hb, hbe⟩ := List.mem_map.mp hm
      have hb1 : b = a := congrArg Prod.fst hbe
      have hb2 : net (metadataUrl b) = some d := congrArg Prod.snd hbe
      subst hb1
      intro hpe
      have hbi : b = i :=
        hinj b (metaFilter_mem_fst hb).1 i (metaFilter_mem_fst hmem).1 hpe
      rw [hbi, hfail] at hb2
      cases hb2

/-- Witness for C4: fetching fails for identifier "100" and succeeds
for identifier "101"; "100" gets no entry and no file, "101" is
processed to completion. -/
theorem metadata_failure_isolated_witness :
    (collectAndSaveData netFail100 "st" "tags.json" emptyFS ["100", "101"]).data "100"
        = none
    ∧ (collectAndSaveData netFail100 "st" "tags.json" emptyFS ["100", "101"]).fs.files
        (filePath "st" "100" "tags.json") = none
    ∧ ((collectAndSaveData netFail100 "st" "tags.json" emptyFS ["100", "101"]).data "101"
          = some (JValue.str "ok")
        ∧ (collectAndSaveData netFail100 "st" "tags.json" emptyFS ["100", "101"]).fs.files
            (filePath "st" "101" "tags.json")
          = some (metaFileContent "101" (JValue.str "ok"))) := by
  have h := metadata_failure_isolated netFail100 "st" "tags.json" emptyFS
    ["100", "101"] "100" (by decide) rfl (by decide)
  exact ⟨h.1, h.2.1, h.2.2 "101" (by decide) (JValue.str "ok") rfl⟩

/-- C9: the two filtered lists stay aligned — `filtered_urls` is
exactly `filtered_id_group` mapped through the URL constructor — and
since `executor.map` preserves input order, every stored entry
`data[illust_id]` and every written file hold exactly the data fetched
from the URL built from that same identifier. -/
theorem metadata_lists_aligned (net : String → Option JValue)
    (store fn : String) (fs : FileSystem) (ids : List String)
    (hinj : ∀ a ∈ ids, ∀ b ∈ ids, filePath store a fn = filePath store b fn → a = b) :
    (metaFilter store fn fs ids).2 = (metaFilter store fn fs ids).1.map metadataUrl
    ∧ ∀ j ∈ (metaFilter store fn fs ids).1, ∀ d, net (metadataUrl j) = some d →
        (collectAndSaveData net store fn fs ids).data j = some d
        ∧ (collectAndSaveData net store fn fs ids).fs.files (filePath store j fn)
            = some (metaFileContent j d) :=
  ⟨metaFilter_snd_eq store fn fs ids,
    fun j hj d hd => collect_save_processed net store fn fs ids hinj j hj d hd⟩

/-- Witness for C9 on a concrete two-identifier batch. -/
theorem metadata_lists_aligned_witness :
    (metaFilter "st" "tags.json" emptyFS ["100", "101"]).2
      = (metaFilter "st" "tags.json" emptyFS ["100", "101"]).1.map metadataUrl
    ∧ ((collectAndSaveData netOkJ "st" "tags.json" emptyFS ["100", "101"]).data "100"
          = some (JValue.str "x")
        ∧ (collectAndSaveData netOkJ "st" "tags.json" emptyFS ["100", "101"]).fs.files
            (filePath "st" "100" "tags.json")
          = some (metaFileContent "100" (JValue.str "x"))) := by
  have h := metadata_lists_aligned netOkJ "st" "tags.json" emptyFS
    ["100", "101"] (by decide)
  exact ⟨h.1, h.2 "100" (by decide) (JValue.str "x") rfl⟩

theorem DownloaderState.eq_of_url {a b : DownloaderState}
    (h : a.url_group = b.url_group) : a = b := by
  cases a; cases b; simp_all

theorem downloaderAdd_eq (dl : DownloaderState) (us : List String) :
    downloaderAdd dl us = ⟨dl.url_group ∪ us.toFinset⟩ :=
  congrArg DownloaderState.mk (foldl_insert_eq_union us dl.url_group)

theorem urlPhase_eq (net : String → Option (List String)) :
    ∀ (order : List String) (dl : DownloaderState),
      urlPhase net order dl
        = ⟨dl.url_group ∪ (order.flatMap (urlsOf net)).toFinset⟩ := by
  intro order
  induction order with
  | nil =>
    intro dl
    cases dl
    simp [urlPhase]
  | cons i rest ih =>
    intro dl
    cases hn : net (pagesUrl i) with
    | none =>
      rw [show urlPhase net (i :: rest) dl = urlPhase net rest dl from by
        simp only [urlPhase, hn], ih]
      refine DownloaderState.eq_of_url ?_
      simp [List.flatMap_cons, urlsOf, hn]
    | some us =>
      rw [show urlPhase net (i :: rest) dl = urlPhase net rest (downloaderAdd dl us) from by
        simp only [urlPhase, hn], ih, downloaderAdd_eq]
      refine DownloaderState.eq_of_url ?_
      simp [List.flatMap_cons, urlsOf, hn, List.toFinset_append, Finset.union_assoc]

/-- C3: in the URL-resolution phase of `collect`, each completed
resolution with a non-null selector result is forwarded to the
Downloader's intake immediately, before later completions are handled;
a null result (zero pages) is forwarded nowhere and raises no failure —
the identifier contributes zero URLs; and the final downloader state is
independent of the completion order, which may be any permutation of
the submission order. -/
theorem url_resolution_forwarding (net : String → Option (List String))
    (i : String) (rest order1 order2 : List String) (dl : DownloaderState)
    (us : List String) :
    (net (pagesUrl i) = some us →
      urlPhase net (i :: rest) dl = urlPhase net rest (downloaderAdd dl us))
    ∧ (net (pagesUrl i) = none →
      urlPhase net (i :: rest) dl = urlPhase net rest dl
      ∧ urlPhase net [i] dl = dl)
    ∧ (order1.Perm order2 → urlPhase net order1 dl = urlPhase net order2 dl) := by
  refine ⟨fun h => by simp only [urlPhase, h],
    fun h => ⟨by simp only [urlPhase, h], by simp only [urlPhase, h]⟩,
    fun hp => ?_⟩
  have hfin : (order1.flatMap (urlsOf net)).toFinset
      = (order2.flatMap (urlsOf net)).toFinset :=
    List.toFinset_eq_of_perm _ _ (hp.flatMap_right (urlsOf net))
  rw [urlPhase_eq net order1 dl, urlPhase_eq net order2 dl, hfin]

/-- Witness for C3: identifier "100" resolves to two URLs, forwarded at
once; identifier "101" resolves to null and contributes nothing; the
two completion orders agree. -/
theorem url_resolution_forwarding_witness :
    urlPhase netPages ["100", "101"] ⟨∅⟩
        = urlPhase netPages ["101"] (downloaderAdd ⟨∅⟩ ["u1", "u2"])
    ∧ (urlPhase netPages ["101", "100"] ⟨∅⟩ = urlPhase netPages ["100"] ⟨∅⟩
        ∧ urlPhase netPages ["101"] ⟨∅⟩ = ⟨∅⟩)
    ∧ urlPhase netPages ["100", "101"] ⟨∅⟩ = urlPhase netPages ["101", "100"] ⟨∅⟩ := by
  have h1 := url_resolution_forwarding netPages "100" ["101"] ["100", "101"]
    ["101", "100"] ⟨∅⟩ ["u1", "u2"]
  have h2 := url_resolution_forwarding netPages "101" ["100"] ["100", "101"]
    ["101", "100"] ⟨∅⟩ []
  exact ⟨h1.1 rfl, h2.2.1 rfl, h1.2.2 (by decide)⟩

/-- C6: on each successful metadata resolution the Collector creates
the identifier's output directory with idempotent create-if-absent
semantics, writes exactly one file, and that file's content is the
single JSON object keyed by the identifier, serialized with a 4-space
indent and with non-ASCII characters preserved literally rather than
escaped. -/
theorem metadata_persist_contract (store fn : String) (st : MetaPassResult)
    (i : String) (d : JValue) :
    (metaProcess store fn st [(i, some d)]).fs.files (filePath store i fn)
        = some (metaFileContent i d)
    ∧ (∀ p, p ≠ filePath store i fn →
        (metaProcess store fn st [(i, some d)]).fs.files p = st.fs.files p)
    ∧ pathJoin store i ∈ (metaProcess store fn st [(i, some d)]).fs.dirs
    ∧ (pathJoin store i ∈ st.fs.dirs →
        (metaProcess store fn st [(i, some d)]).fs.dirs = st.fs.dirs)
    ∧ metaFileContent i d
        = String.mk (Char.ofNat 123 :: '\n'
            :: (List.replicate 4 ' ' ++ jsonQuoteChars false i
              ++ ':' :: ' ' :: jsonDumpVal false 4 1 d
              ++ ['\n', Char.ofNat 125]))
    ∧ (∀ c : Char, 127 < c.toNat → jsonEscapeChar false c = [c]) := by
  refine ⟨?_, ?_, ?_, ?_, ?_, ?_⟩
  · simp [metaProcess, writeFile]
  · intro p hp
    simp only [metaProcess, writeFile, makedirs_files]
    rw [if_neg hp]
  · simp only [metaProcess, writeFile]
    exact makedirs_mem st.fs (pathJoin store i)
  · intro h
    simp only [metaProcess, writeFile]
    rw [makedirs_idem st.fs (pathJoin store i) h]
  · simp [metaFileContent, jsonDumps, jsonDumpVal, jsonDumpEntries,
      List.append_assoc]
  · intro c hc
    refine jsonEscapeChar_literal c (by omega) ?_ ?_
    · intro he; subst he; exact absurd hc (by decide)
    · intro he; subst he; exact absurd hc (by decide)

/-- Witness for C6 with a non-ASCII document for identifier "1" whose
directory already exists. -/
theorem metadata_persist_contract_witness :
    (metaProcess "s" "t.json" stDir1 [("1", some (JValue.str "猫"))]).fs.files
        (filePath "s" "1" "t.json") = some (metaFileContent "1" (JValue.str "猫"))
    ∧ (metaProcess "s" "t.json" stDir1 [("1", some (JValue.str "猫"))]).fs.files "p"
        = stDir1.fs.files "p"
    ∧ pathJoin "s" "1"
        ∈ (metaProcess "s" "t.json" stDir1 [("1", some (JValue.str "猫"))]).fs.dirs
    ∧ (metaProcess "s" "t.json" stDir1 [("1", some (JValue.str "猫"))]).fs.dirs
        = stDir1.fs.dirs
    ∧ jsonEscapeChar false '猫' = ['猫'] := by
  have h := metadata_persist_contract "s" "t.json" stDir1 "1" (JValue.str "猫")
  exact ⟨h.1, h.2.1 "p" (by decide), h.2.2.1, h.2.2.2.1 (by decide),
    h.2.2.2.2.2 '猫' (by decide)⟩

/-- C2: for any sequence of `Collector.add` calls over iterables with
arbitrary overlaps, starting from a fresh collector, the resulting
`id_group` is exactly the set of distinct identifiers ever passed (so
its size is the number of distinct values), repeating any `add` call
leaves the collector unchanged, and `add` is insensitive to the order
of its input. -/
theorem add_is_idempotent_set_union (dl : DownloaderState)
    (batches : List (List String)) (c : Collector) (b ids1 ids2 : List String)
    (hperm : ids1.Perm ids2) :
    (batches.foldl Collector.add (Collector.init dl)).id_group = batches.flatten.toFinset
    ∧ (batches.foldl Collector.add (Collector.init dl)).id_group.card
        = batches.flatten.toFinset.card
    ∧ (c.add b).add b = c.add b
    ∧ c.add ids1 = c.add ids2 := by
  refine ⟨?_, ?_, ?_, ?_⟩
  · rw [Collector.addAll_id_group]
    simp [Collector.init]
  · rw [Collector.addAll_id_group]
    simp [Collector.init]
  · refine Collector.eq_of_fields ?_ rfl
    simp [Collector.add_id_group, Finset.union_assoc]
  · refine Collector.eq_of_fields ?_ rfl
    rw [Collector.add_id_group, Collector.add_id_group,
      List.toFinset_eq_of_perm _ _ hperm]

/-- Witness for C2 at a concrete overlapping sequence of add calls. -/
theorem add_is_idempotent_set_union_witness :
    (([["a", "b"], ["b", "c"]] : List (List String)).foldl Collector.add
        (Collector.init ⟨∅⟩)).id_group = [["a", "b"], ["b", "c"]].flatten.toFinset
    ∧ (([["a", "b"], ["b", "c"]] : List (List String)).foldl Collector.add
        (Collector.init ⟨∅⟩)).id_group.card = [["a", "b"], ["b", "c"]].flatten.toFinset.card
    ∧ ((Collector.init ⟨∅⟩).add ["a"]).add ["a"] = (Collector.init ⟨∅⟩).add ["a"]
    ∧ (Collector.init ⟨∅⟩).add ["a", "b"] = (Collector.init ⟨∅⟩).add ["b", "a"] :=
  add_is_idempotent_set_union ⟨∅⟩ [["a", "b"], ["b", "c"]] (Collector.init ⟨∅⟩)
    ["a"] ["a", "b"] ["b", "a"] (by decide)

/-- Counterexample to C5: in the code the metadata passes run before
the URL-resolution pass, not after it, and the URL pool is created with
`num_threads`, never `num_threads + 1`. With tag collection enabled and
4 threads the phase trace is the tag pool of size 4 followed by the URL
pool of size 4; no pool of size 5 exists and the trace is not
URL-resolution followed by metadata. -/
theorem collect_phases_counterexample :
    collectPhases true false 4 = [PoolEvent.metaPool "tags" 4, PoolEvent.urlPool 4]
    ∧ PoolEvent.urlPool 5 ∉ collectPhases true false 4
    ∧ collectPhases true false 4
        ≠ [PoolEvent.urlPool 5, PoolEvent.metaPool "tags" 4] := by decide

/-- C5 amended: when metadata/tag collection is enabled it runs as a
first pass, before URL resolution; every pool `collect` creates — the
metadata pools and the URL-resolution pool alike — has size
`num_threads`, and the URL-resolution pass is the single last phase,
preceded only by metadata passes. -/
theorem collect_phases_sizes (wt bm : Bool) (nt : Nat) :
    (∀ e ∈ collectPhases wt bm nt, poolSize e = nt)
    ∧ (∃ metas, collectPhases wt bm nt = metas ++ [PoolEvent.urlPool nt]
        ∧ ∀ e ∈ metas, ∃ s, e = PoolEvent.metaPool s nt) := by
  cases wt <;> cases bm
  · exact ⟨by simp [collectPhases, poolSize], [],
      by simp [collectPhases], by simp⟩
  · refine ⟨?_, [PoolEvent.metaPool "bookmark_data" nt],
      by simp [collectPhases], by simp⟩
    intro e he
    simp [collectPhases] at he
    rcases he with he | he <;> simp [he, poolSize]
  · refine ⟨?_, [PoolEvent.metaPool "tags" nt],
      by simp [collectPhases], by simp⟩
    intro e he
    simp [collectPhases] at he
    rcases he with he | he <;> simp [he, poolSize]
  · refine ⟨?_, [PoolEvent.metaPool "tags" nt, PoolEvent.metaPool "bookmark_data" nt],
      by simp [collectPhases], by simp⟩
    intro e he
    simp [collectPhases] at he
    rcases he with he | he | he <;> simp [he, poolSize]

/-- Witness for C5 amended at a concrete configuration. -/
theorem collect_phases_sizes_witness :
    poolSize (PoolEvent.urlPool 2) = 2 :=
  (collect_phases_sizes true true 2).1 (PoolEvent.urlPool 2) (by decide)

/-- Counterexample to C7: with the default `FAIL_TIMES = 5` and N = 5
consecutive transient failures (so N ≤ FAIL_TIMES as the claim allows),
even though the (N+1)-th attempt would succeed, the fetch has already
returned `FatalFailure` after its 5 allowed attempts, not `Success`. -/
theorem fetch_retry_counterexample :
    FAIL_TIMES = 5
    ∧ failFirst 5 0 = false ∧ failFirst 5 1 = false ∧ failFirst 5 2 = false
    ∧ failFirst 5 3 = false ∧ failFirst 5 4 = false
    ∧ failFirst 5 5 = true
    ∧ fetchWithRetry FAIL_TIMES (failFirst 5)
        = (FetchOutcome.FatalFailure, FAIL_TIMES) := by decide

theorem fetchAttempts_success (ok : Nat → Bool) :
    ∀ fuel made N, (∀ j, made ≤ j → j < N → ok j = false) → ok N = true →
      made ≤ N → N < made + fuel →
      fetchAttempts ok fuel made = (FetchOutcome.Success, N + 1) := by
  intro fuel
  induction fuel with
  | zero => intro made N _ _ h1 h2; omega
  | succ fuel ih =>
    intro made N h hs h1 h2
    rw [fetchAttempts]
    by_cases hm : made = N
    · subst hm
      simp [hs]
    · have hmN : made < N := lt_of_le_of_ne h1 hm
      have hf : ok made = false := h made le_rfl hmN
      simp only [hf, Bool.false_eq_true, if_false]
      exact ih (made + 1) N (fun j hj1 hj2 => h j (by omega) hj2) hs
        (by omega) (by omega)

theorem fetchAttempts_allfail (ok : Nat → Bool) :
    ∀ fuel made, (∀ j, made ≤ j → j < made + fuel → ok j = false) →
      fetchAttempts ok fuel made = (FetchOutcome.FatalFailure, made + fuel) := by
  intro fuel
  induction fuel with
  | zero => intro made _; rfl
  | succ fuel ih =>
    intro made h
    have hf : ok made = false := h made le_rfl (by omega)
    rw [fetchAttempts]
    simp only [hf, Bool.false_eq_true, if_false]
    rw [ih (made + 1) fun j hj1 hj2 => h j (by omega) (by omega)]
    refine congrArg _ ?_
    omega

/-- C7 amended: the Fetcher makes at most `FAIL_TIMES` attempts, and
the default configured value is 5. Facing N consecutive transient
failures with N < FAIL_TIMES (strictly below the bound — after
FAIL_TIMES failures the fetch has already given up), it still returns
`Success` when the (N+1)-th attempt succeeds; when every allowed
attempt fails it returns `FatalFailure` after exactly `FAIL_TIMES`
attempts. -/
theorem fetch_retry_policy (maxA N : Nat) (ok : Nat → Bool) :
    FAIL_TIMES = 5
    ∧ ((∀ j, j < N → ok j = false) → ok N = true → N < maxA →
        fetchWithRetry maxA ok = (FetchOutcome.Success, N + 1))
    ∧ ((∀ j, j < maxA → ok j = false) →
        fetchWithRetry maxA ok = (FetchOutcome.FatalFailure, maxA)) := by
  refine ⟨rfl, fun h hs hN => ?_, fun h => ?_⟩
  · exact fetchAttempts_success ok maxA 0 N (fun j _ hj => h j hj) hs
      (Nat.zero_le N) (by omega)
  · have := fetchAttempts_allfail ok maxA 0 fun j _ hj => h j (by omega)
    simpa using this

/-- Witness for C7 amended: with 5 allowed attempts, 2 failures then a
success yield Success after 3 attempts, while constant failure yields
FatalFailure after exactly 5 attempts. -/
theorem fetch_retry_policy_witness :
    FAIL_TIMES = 5
    ∧ fetchWithRetry 5 (failFirst 2) = (FetchOutcome.Success, 3)
    ∧ fetchWithRetry 5 allFail = (FetchOutcome.FatalFailure, 5) := by
  have h1 := fetch_retry_policy 5 2 (failFirst 2)
  have h2 := fetch_retry_policy 5 5 allFail
  refine ⟨h1.1, h1.2.1 ?_ ?_ ?_, h2.2.2 ?_⟩
  · intro j hj
    simp only [failFirst, decide_eq_false_iff_not]
    omega
  · simp [failFirst]
  · omega
  · intro j _
    rfl

/-- C10: importing the settings module when `userdata.json` does not
exist prints "do not find userdata.json" and terminates the process
with exit status 0 via `sys.exit`, leaving `PIXIV_ID` and `PASSWORD` at
their empty-string defaults; any other error while reading or parsing
the file — malformed JSON or a missing key — is not caught and
propagates as an exception. -/
theorem settings_load_behaviour (kvs : List (String × JValue)) :
    loadSettingsModule UserdataFile.absent
        = SettingsOutcome.exited 0 "do not find userdata.json" "" ""
    ∧ loadSettingsModule UserdataFile.unparsable
        = SettingsOutcome.raised "JSONDecodeError"
    ∧ (kvs.lookup "name" = none →
        loadSettingsModule (UserdataFile.parsed (JValue.obj kvs))
          = SettingsOutcome.raised "KeyError")
    ∧ ∀ nv, kvs.lookup "name" = some nv → kvs.lookup "password" = none →
        loadSettingsModule (UserdataFile.parsed (JValue.obj kvs))
          = SettingsOutcome.raised "KeyError" := by
  refine ⟨rfl, rfl, fun h => ?_, fun nv h1 h2 => ?_⟩
  · simp [loadSettingsModule, h]
  · simp [loadSettingsModule, h1, h2]

/-- Witness for C10 at concrete userdata documents. -/
theorem settings_load_behaviour_witness :
    loadSettingsModule UserdataFile.absent
        = SettingsOutcome.exited 0 "do not find userdata.json" "" ""
    ∧ loadSettingsModule UserdataFile.unparsable
        = SettingsOutcome.raised "JSONDecodeError"
    ∧ loadSettingsModule (UserdataFile.parsed (JValue.obj []))
        = SettingsOutcome.raised "KeyError"
    ∧ loadSettingsModule
        (UserdataFile.parsed (JValue.obj [("name", JValue.str "u")]))
        = SettingsOutcome.raised "KeyError" := by
  have h := settings_load_behaviour []
  have h2 := settings_load_behaviour [("name", JValue.str "u")]
  exact ⟨h.1, h.2.1, h.2.2.1 rfl, h2.2.2.2 (JValue.str "u") rfl rfl⟩

/-- C8: `Collector.add` mutates only the collector's own identifier
set; after any sequence of add calls the attached downloader state, in
particular its URL working set `url_group`, is unchanged. -/
theorem add_frames_downloader (c : Collector) (batches : List (List String)) :
    (batches.foldl Collector.add c).downloader = c.downloader
    ∧ (batches.foldl Collector.add c).downloader.url_group = c.downloader.url_group := by
  have h : (batches.foldl Collector.add c).downloader = c.downloader := by
    induction batches generalizing c with
    | nil => rfl
    | cons b bs ih => simpa [Collector.add_downloader_eq] using ih (c.add b)
  exact ⟨h, by rw [h]⟩

end PixivCrawler
